import Mathlib

set_option maxHeartbeats 1000000

/-! Verification development for the asteroid-dumper draft repository.

The repository (src/utils.js, src/index.js) consists of three cores: an
HTTP client with a bounded retry loop, a rate-line formatter
(dataToLines), and a bounded-concurrency task runner (class Concurrency).
Each is translated below into an executable Lean definition, and the
behavioural properties of the design document are proved about these
definitions. -/

namespace AsteroidDumper

/-- Shallow model of a JavaScript runtime value as dataToLines uses it:
the code only asks whether the value is truthy (the expression
rate OR empty-string) and how the value prints inside a template literal.
Field truthy is the JS truthiness of the value, field str its
template-literal rendering. -/
structure JsVal where
  truthy : Bool
  str : String
deriving Repr, DecidableEq

/-- The JS number zero: falsy, prints as 0. -/
def JsVal.zero : JsVal := ⟨false, "0"⟩

/-- The JS value null: falsy. -/
def JsVal.null : JsVal := ⟨false, "null"⟩

/-- The JS value undefined (an absent rate): falsy. -/
def JsVal.undef : JsVal := ⟨false, "undefined"⟩

/-- A truthy JS number together with its decimal rendering, e.g. the JS
number 0.85 renders as the string 0.85 and the JS number 1.0 renders as
the string 1. -/
def JsVal.num (s : String) : JsVal := ⟨true, s⟩

/-- Comparator used by the sort inside dataToLines; on the plain ASCII
currency codes of this program, localeCompare agrees with lexicographic
string order, stated here on the character lists of the two keys (the
same order as the order on String itself, see String.le_iff_toList_le). -/
def quoteLE (a b : String × JsVal) : Prop := a.1.data ≤ b.1.data

instance : DecidableRel quoteLE :=
  fun a b => inferInstanceAs (Decidable (a.1.data ≤ b.1.data))

instance : IsTotal (String × JsVal) quoteLE := ⟨fun a b => le_total a.1.data b.1.data⟩

instance : IsTrans (String × JsVal) quoteLE := ⟨fun _ _ _ h h2 => le_trans h h2⟩

/-- Formatting step of dataToLines: an entry (quote, rate) becomes the
pair (quote, date ++ comma ++ rendered rate), where a falsy rate renders
as the empty string. -/
def formatLine (date : String) (e : String × JsVal) : String × String :=
  (e.1, date ++ "," ++ (if e.2.truthy then e.2.str else ""))

/-- Lean model of dataToLines from src/utils.js: filter the rate entries
to the requested quotes, sort ascending by quote code, and format each
surviving entry. The rates object is modelled as its entry list in
insertion order. -/
def dataToLines (date : String) (rates : List (String × JsVal)) (quotes : List String) :
    List (String × String) :=
  (List.insertionSort quoteLE (rates.filter (fun e => quotes.contains e.1))).map
    (formatLine date)

/-- A fetch response as HttpClient.get inspects it: the ok flag (2xx
status), the status code and text, and the JSON-decoded body. -/
structure Response (α : Type) where
  ok : Bool
  status : Nat
  statusText : String
  body : α
deriving Repr, DecidableEq

/-- Outcome of one attempt inside HttpClient.get: a transport failure or
timeout is an error supplied by fetchFn; a response with ok = false
becomes the formatted HTTP status error; otherwise the decoded body is
returned. fetchFn i is the result of the i-th fetch call. -/
def attemptResult (url : String) (fetchFn : Nat → Except String (Response α)) (i : Nat) :
    Except String α :=
  match fetchFn i with
  | .error e => .error e
  | .ok r =>
    if !r.ok then
      .error ("HTTP " ++ toString r.status ++ ": " ++ r.statusText ++ " on \"" ++ url ++ "\"")
    else
      .ok r.body

/-- The retry loop of HttpClient.get. remaining is the number of retries
still allowed after the current attempt and i is the current attempt
index; the function returns the final outcome together with the number of
attempts performed and the number of warnings emitted (the JS code warns
once per failed attempt that still has retries left). -/
def getAux (attempt : Nat → Except String α) : Nat → Nat → Except String α × Nat × Nat
  | remaining, i =>
    match attempt i with
    | .ok v => (.ok v, 1, 0)
    | .error e =>
      match remaining with
      | 0 => (.error e, 1, 0)
      | r + 1 =>
        let rest := getAux attempt r (i + 1)
        (rest.1, rest.2.1 + 1, rest.2.2 + 1)

/-- HttpClient.get with retry budget retries, instrumented with attempt
and warning counts. -/
def HttpClient.get (url : String) (fetchFn : Nat → Except String (Response α))
    (retries : Nat) : Except String α × Nat × Nat :=
  getAux (attemptResult url fetchFn) retries 0

instance {ε α : Type u} [DecidableEq ε] [DecidableEq α] : DecidableEq (Except ε α) :=
  fun a b =>
    match a, b with
    | .error e, .error e2 =>
      if h : e = e2 then .isTrue (by rw [h]) else .isFalse (fun hc => by cases hc; exact h rfl)
    | .error _, .ok _ => .isFalse (fun hc => by cases hc)
    | .ok _, .error _ => .isFalse (fun hc => by cases hc)
    | .ok v, .ok v2 =>
      if h : v = v2 then .isTrue (by rw [h]) else .isFalse (fun hc => by cases hc; exact h rfl)

/-- State of one Concurrency run. chains holds, for each worker chain
started by run, the slot of the task invocation that chain is currently
awaiting, or none once the chain has terminated. results models the JS
results array (a sparse array whose holes are none), counts the number of
invocations of each task so far, writes the number of assignments made to
each result slot, and cursor the shared private field index of the class. -/
structure ConcState (α : Type) where
  results : List (Option α)
  counts : List Nat
  writes : List Nat
  cursor : Nat
  chains : List (Option Nat)
deriving Repr, DecidableEq

/-- JS sparse-array assignment of v at index j: indices beyond the current
length are filled with holes and the length becomes j + 1 when j is past
the end. -/
def sparseSet (l : List (Option α)) (j : Nat) (v : α) : List (Option α) :=
  if j < l.length then l.set j (some v)
  else l ++ List.replicate (j - l.length) none ++ [some v]

/-- Initial state of Concurrency.run with the given batchSize: the
constructor sets the cursor to 0 and results to the empty array, and run
starts min batchSize n worker chains on slots 0 .. size - 1, invoking
those tasks at once. -/
def Concurrency.init (tasks : List (Except ε α)) (batchSize : Int) : ConcState α :=
  { results := []
    counts := (List.range tasks.length).map
      (fun j => if j < (min batchSize (tasks.length : Int)).toNat then 1 else 0)
    writes := List.replicate tasks.length 0
    cursor := 0
    chains := (List.range (min batchSize (tasks.length : Int)).toNat).map some }

/-- One scheduler event: the completion of the task invocation that worker
chain number (k mod number-of-chains) is awaiting. This mirrors the body
of the private method runOne of Concurrency after its await: store the
result, then, if the shared cursor is below the last slot, increment it,
claim that slot and keep the chain alive on it (invoking the task there at
once); otherwise the chain terminates. A failed invocation terminates the
chain and reports the error, which the run surfaces immediately. Picking
an already terminated chain is a stutter step. -/
def Concurrency.step [Inhabited ε] (tasks : List (Except ε α)) (k : Nat)
    (st : ConcState α) : ConcState α × Option ε :=
  match st.chains.getD (k % st.chains.length) none with
  | none => (st, none)
  | some j =>
    match tasks.getD j (Except.error default) with
    | .error e => ({ st with chains := st.chains.set (k % st.chains.length) none }, some e)
    | .ok v =>
      if st.cursor < tasks.length - 1 then
        if st.cursor + 1 < tasks.length then
          ({ results := sparseSet st.results j v
             counts := st.counts.set (st.cursor + 1) (st.counts.getD (st.cursor + 1) 0 + 1)
             writes := st.writes.set j (st.writes.getD j 0 + 1)
             cursor := st.cursor + 1
             chains := st.chains.set (k % st.chains.length) (some (st.cursor + 1)) }, none)
        else
          ({ results := sparseSet st.results j v
             counts := st.counts
             writes := st.writes.set j (st.writes.getD j 0 + 1)
             cursor := st.cursor + 1
             chains := st.chains.set (k % st.chains.length) none }, none)
      else
        ({ results := sparseSet st.results j v
           counts := st.counts
           writes := st.writes.set j (st.writes.getD j 0 + 1)
           cursor := st.cursor
           chains := st.chains.set (k % st.chains.length) none }, none)

/-- True once every worker chain has terminated, i.e. the Promise.all
inside run has settled successfully. -/
def ConcState.done (st : ConcState α) : Bool :=
  st.chains.all (fun c => c.isNone)

/-- Drive a run along an explicit completion schedule; each schedule entry
picks the chain whose awaited invocation settles next, so quantifying over
schedules quantifies over all completion orders. Returns none when the
schedule is exhausted before the run settles, some error e when the next
scheduled event is a failed invocation (the run rejects with exactly that
error), and some ok of the final state once every chain has terminated. -/
def Concurrency.runAux [Inhabited ε] (tasks : List (Except ε α)) :
    List Nat → ConcState α → Option (Except ε (ConcState α))
  | [], st => if st.done then some (.ok st) else none
  | k :: σ, st =>
    if st.done then some (.ok st)
    else
      match Concurrency.step tasks k st with
      | (_, some e) => some (.error e)
      | (st', none) => Concurrency.runAux tasks σ st'

/-- Concurrency.run driven by a completion schedule, returning the final
instrumented state. -/
def Concurrency.runState [Inhabited ε] (tasks : List (Except ε α)) (batchSize : Int)
    (σ : List Nat) : Option (Except ε (ConcState α)) :=
  Concurrency.runAux tasks σ (Concurrency.init tasks batchSize)

/-- Concurrency.run itself: as runState, but projecting the copied results
array that the JS method returns. -/
def Concurrency.run [Inhabited ε] (tasks : List (Except ε α)) (batchSize : Int)
    (σ : List Nat) : Option (Except ε (List (Option α))) :=
  (Concurrency.runState tasks batchSize σ).map (fun r => r.map ConcState.results)

/-- The state after the scheduled completion events, not stopping at
failures: in the source a rejected run does not cancel the sibling worker
chains, which keep claiming and invoking tasks; advance follows them. -/
def Concurrency.advance [Inhabited ε] (tasks : List (Except ε α)) :
    List Nat → ConcState α → ConcState α
  | [], st => st
  | k :: σ, st => Concurrency.advance tasks σ (Concurrency.step tasks k st).1

/-- Slot-range invariant: every slot some live chain is awaiting is a
valid task index. It holds throughout every run, also across failed
invocations. -/
def Concurrency.SlotsInv (tasks : List (Except ε α)) (st : ConcState α) : Prop :=
  ∀ p j, st.chains.getD p none = some j → j < tasks.length

/-- Master invariant of a run that has not yet observed a failed
invocation: the chain count and the instrumentation sizes are stable, the
cursor stays below the task count, every written slot holds the value its
task produced, every slot is written, in flight, or still unclaimed
beyond both the cursor and the initial window, and the invocation counts
are determined by the initial window and the cursor. -/
def Concurrency.Inv [Inhabited ε] (tasks : List (Except ε α)) (batchSize : Int)
    (st : ConcState α) : Prop :=
  st.chains.length = (min batchSize (tasks.length : Int)).toNat ∧
  st.results.length ≤ tasks.length ∧
  Concurrency.SlotsInv tasks st ∧
  st.cursor ≤ tasks.length - 1 ∧
  (st.done = true → tasks.length ≤ st.cursor + 1) ∧
  (∀ j, j < tasks.length → st.results.getD j none ≠ none ∨
    (∃ p, st.chains.getD p none = some j) ∨
    ((min batchSize (tasks.length : Int)).toNat ≤ j ∧ st.cursor < j)) ∧
  (∀ j, st.results.getD j none ≠ none →
    ∃ v, tasks.getD j (Except.error default) = Except.ok v ∧
      st.results.getD j none = some v) ∧
  st.counts.length = tasks.length ∧
  (∀ j, j < tasks.length → st.counts.getD j 0 =
    (if j < (min batchSize (tasks.length : Int)).toNat then 1 else 0) +
    (if 1 ≤ j ∧ j ≤ st.cursor then 1 else 0))

theorem getD_set_self {β : Type u} (l : List β) (i : Nat) (a d : β) (hi : i < l.length) :
    (l.set i a).getD i d = a := by
  simp [List.getD_eq_getElem?_getD, List.getElem?_set_self hi]

theorem getD_set_ne {β : Type u} (l : List β) {i i' : Nat} (a d : β) (h : i ≠ i') :
    (l.set i a).getD i' d = l.getD i' d := by
  simp [List.getD_eq_getElem?_getD, List.getElem?_set_ne h]

theorem getD_lt_length {β : Type u} {l : List β} {j : Nat} {d : β} (h : l.getD j d ≠ d) :
    j < l.length := by
  by_contra hj
  have h0 : l[j]? = none := List.getElem?_eq_none (Nat.le_of_not_lt hj)
  simp [List.getD_eq_getElem?_getD, h0] at h

theorem getD_some_lt {β : Type u} {l : List (Option β)} {p : Nat} {j : β}
    (h : l.getD p none = some j) : p < l.length := by
  by_contra hp
  rw [List.getD_eq_getElem?_getD, List.getElem?_eq_none (Nat.le_of_not_lt hp)] at h
  cases h

theorem sparseSet_length (l : List (Option α)) (j : Nat) (v : α) :
    (sparseSet l j v).length = max l.length (j + 1) := by
  unfold sparseSet
  split
  · simp; omega
  · simp; omega

theorem sparseSet_getD_self (l : List (Option α)) (j : Nat) (v : α) :
    (sparseSet l j v).getD j none = some v := by
  unfold sparseSet
  split
  · rename_i h
    exact getD_set_self l j (some v) none h
  · rename_i h
    have hl : l.length ≤ j := Nat.le_of_not_lt h
    have hlen2 : (l ++ List.replicate (j - l.length) none).length = j := by
      simp; omega
    rw [List.getD_eq_getElem?_getD, List.getElem?_append_right (le_of_eq hlen2),
      hlen2]
    simp

theorem sparseSet_getD_ne (l : List (Option α)) {j j' : Nat} (v : α) (h : j' ≠ j) :
    (sparseSet l j v).getD j' none = l.getD j' none := by
  unfold sparseSet
  split
  · exact getD_set_ne l (some v) none (Ne.symm h)
  · rename_i hj
    have hl : l.length ≤ j := Nat.le_of_not_lt hj
    have hlen2 : (l ++ List.replicate (j - l.length) none).length = j := by
      simp; omega
    rcases Nat.lt_or_ge j' l.length with h1 | h1
    · rw [List.getD_eq_getElem?_getD,
        List.getElem?_append_left (by rw [hlen2]; omega),
        List.getElem?_append_left h1, ← List.getD_eq_getElem?_getD]
    · have h2 : l.getD j' none = none := by
        rw [List.getD_eq_getElem?_getD, List.getElem?_eq_none h1]; rfl
      rw [h2, List.getD_eq_getElem?_getD]
      rcases Nat.lt_or_ge j' j with h3 | h3
      · rw [List.getElem?_append_left (by rw [hlen2]; omega),
          List.getElem?_append_right h1]
        have h5 : j' - l.length < j - l.length := by omega
        rw [List.getElem?_replicate_of_lt h5]
        rfl
      · rw [List.getElem?_append_right (by rw [hlen2]; omega)]
        rw [List.getElem?_eq_none (by simp [hlen2]; omega)]
        rfl

theorem range_map_some_getD {s p j : Nat}
    (h : ((List.range s).map some).getD p none = some j) : j = p ∧ p < s := by
  rcases Nat.lt_or_ge p s with hp | hp
  · rw [List.getD_eq_getElem?_getD, List.getElem?_map, List.getElem?_range hp] at h
    simp at h
    exact ⟨h.symm, hp⟩
  · rw [List.getD_eq_getElem?_getD, List.getElem?_map,
      List.getElem?_eq_none (by simpa using hp)] at h
    simp at h

theorem done_getD_none {st : ConcState α} (hd : st.done = true) (p : Nat) :
    st.chains.getD p none = none := by
  rw [ConcState.done, List.all_eq_true] at hd
  rcases hc : st.chains[p]? with _ | c
  · simp [List.getD_eq_getElem?_getD, hc]
  · have hm : c ∈ st.chains := List.getElem?_mem hc
    have hcn := hd c hm
    rw [Option.isNone_iff_eq_none] at hcn
    simp [List.getD_eq_getElem?_getD, hc, hcn]

theorem step_done [Inhabited ε] (tasks : List (Except ε α)) (k : Nat)
    {st : ConcState α} (hd : st.done = true) :
    Concurrency.step tasks k st = (st, none) := by
  unfold Concurrency.step
  rw [done_getD_none hd]

theorem advance_done [Inhabited ε] (tasks : List (Except ε α)) (σ : List Nat)
    {st : ConcState α} (hd : st.done = true) :
    Concurrency.advance tasks σ st = st := by
  induction σ with
  | nil => rfl
  | cons k σ ih =>
    unfold Concurrency.advance
    rw [step_done tasks k hd]
    exact ih

theorem runAux_done [Inhabited ε] (tasks : List (Except ε α)) (σ : List Nat)
    {st : ConcState α} (hd : st.done = true) :
    Concurrency.runAux tasks σ st = some (.ok st) := by
  cases σ <;> simp [Concurrency.runAux, hd]

theorem step_chains_length [Inhabited ε] (tasks : List (Except ε α)) (k : Nat)
    (st : ConcState α) :
    (Concurrency.step tasks k st).1.chains.length = st.chains.length := by
  unfold Concurrency.step
  rcases hc : st.chains.getD (k % st.chains.length) none with _ | j
  · simp only [hc]
  · simp only [hc]
    rcases ht : tasks.getD j (Except.error default) with e | v
    · simp only [ht, List.length_set]
    · simp only [ht]
      split
      · split <;> simp only [List.length_set]
      · simp only [List.length_set]

theorem advance_chains_length [Inhabited ε] (tasks : List (Except ε α)) (σ : List Nat)
    (st : ConcState α) :
    (Concurrency.advance tasks σ st).chains.length = st.chains.length := by
  induction σ generalizing st with
  | nil => rfl
  | cons k σ ih =>
    unfold Concurrency.advance
    rw [ih, step_chains_length]

theorem slots_init (tasks : List (Except ε α)) (b : Int) :
    Concurrency.SlotsInv tasks (Concurrency.init tasks b) := by
  intro p j h
  have h2 := range_map_some_getD h
  have h3 : (min b (tasks.length : Int)).toNat ≤ tasks.length := by omega
  omega

theorem slots_step [Inhabited ε] {tasks : List (Except ε α)} {st : ConcState α}
    (h : Concurrency.SlotsInv tasks st) (k : Nat) :
    Concurrency.SlotsInv tasks (Concurrency.step tasks k st).1 := by
  unfold Concurrency.step
  rcases hc : st.chains.getD (k % st.chains.length) none with _ | j
  · simp only [hc]
    exact h
  · have hi : k % st.chains.length < st.chains.length := getD_some_lt hc
    simp only [hc]
    rcases ht : tasks.getD j (Except.error default) with e | v
    · simp only [ht]
      intro p j2 hp
      by_cases hpi : k % st.chains.length = p
      · rw [← hpi, getD_set_self st.chains _ none none hi] at hp
        cases hp
      · rw [getD_set_ne st.chains none none hpi] at hp
        exact h p j2 hp
    · simp only [ht]
      split
      · split
        · rename_i h1 h2
          intro p j2 hp
          by_cases hpi : k % st.chains.length = p
          · rw [← hpi, getD_set_self st.chains _ _ none hi] at hp
            cases hp
            exact h2
          · rw [getD_set_ne st.chains _ none hpi] at hp
            exact h p j2 hp
        · intro p j2 hp
          by_cases hpi : k % st.chains.length = p
          · rw [← hpi, getD_set_self st.chains _ none none hi] at hp
            cases hp
          · rw [getD_set_ne st.chains none none hpi] at hp
            exact h p j2 hp
      · intro p j2 hp
        by_cases hpi : k % st.chains.length = p
        · rw [← hpi, getD_set_self st.chains _ none none hi] at hp
          cases hp
        · rw [getD_set_ne st.chains none none hpi] at hp
          exact h p j2 hp

theorem step_error_task [Inhabited ε] {tasks : List (Except ε α)} {st : ConcState α}
    {k : Nat} {e : ε} (hs : (Concurrency.step tasks k st).2 = some e) :
    ∃ j, st.chains.getD (k % st.chains.length) none = some j ∧
      tasks.getD j (Except.error default) = Except.error e := by
  unfold Concurrency.step at hs
  rcases hc : st.chains.getD (k % st.chains.length) none with _ | j
  · simp only [hc] at hs
    cases hs
  · simp only [hc] at hs
    rcases ht : tasks.getD j (Except.error default) with e2 | v
    · simp only [ht] at hs
      cases hs
      exact ⟨j, rfl, ht⟩
    · simp only [ht] at hs
      split at hs
      · split at hs <;> cases hs
      · cases hs

theorem inv_init [Inhabited ε] (tasks : List (Except ε α)) (b : Int) (hb : 1 ≤ b) :
    Concurrency.Inv tasks b (Concurrency.init tasks b) := by
  have hs0 : (min b (tasks.length : Int)).toNat = 0 → tasks.length = 0 := by omega
  have hsn : (min b (tasks.length : Int)).toNat ≤ tasks.length := by omega
  unfold Concurrency.Inv Concurrency.init
  refine ⟨?_, ?_, ?_, ?_, ?_, ?_, ?_, ?_, ?_⟩
  · simp
  · simp
  · intro p j h
    simp only at h
    have h2 := range_map_some_getD h
    omega
  · simp
  · intro hd
    simp only [ConcState.done] at hd
    rw [List.all_eq_true] at hd
    rcases Nat.eq_zero_or_pos ((min b (tasks.length : Int)).toNat) with h0 | h0
    · have := hs0 h0
      omega
    · exfalso
      have hm : (some 0 : Option Nat) ∈
          (List.range ((min b (tasks.length : Int)).toNat)).map some :=
        List.mem_map_of_mem some (List.mem_range.mpr h0)
      have hx := hd _ hm
      simp at hx
  · intro j hj
    rcases Nat.lt_or_ge j ((min b (tasks.length : Int)).toNat) with hjs | hjs
    · right; left
      refine ⟨j, ?_⟩
      simp only
      rw [List.getD_eq_getElem?_getD, List.getElem?_map, List.getElem?_range hjs]
      rfl
    · right; right
      refine ⟨hjs, ?_⟩
      simp only
      rcases Nat.eq_zero_or_pos j with h0 | h0
      · exfalso
        have h5 : (min b (tasks.length : Int)).toNat = 0 := by omega
        have := hs0 h5
        omega
      · exact h0
  · intro j h
    simp only [List.getD_eq_getElem?_getD] at h
    simp at h
  · simp
  · intro j hj
    simp only
    rw [List.getD_eq_getElem?_getD, List.getElem?_map, List.getElem?_range hj]
    have hA : ¬(1 ≤ j ∧ j ≤ 0) := by omega
    rw [if_neg hA]
    simp

theorem step_eq_stutter [Inhabited ε] {tasks : List (Except ε α)} {st : ConcState α}
    {k : Nat} (hc : st.chains.getD (k % st.chains.length) none = none) :
    Concurrency.step tasks k st = (st, none) := by
  unfold Concurrency.step
  simp only [hc]

theorem step_eq_err [Inhabited ε] {tasks : List (Except ε α)} {st : ConcState α}
    {k j : Nat} {e : ε} (hc : st.chains.getD (k % st.chains.length) none = some j)
    (ht : tasks.getD j (Except.error default) = Except.error e) :
    Concurrency.step tasks k st =
      ({ st with chains := st.chains.set (k % st.chains.length) none }, some e) := by
  unfold Concurrency.step
  simp only [hc, ht]

theorem step_eq_claim [Inhabited ε] {tasks : List (Except ε α)} {st : ConcState α}
    {k j : Nat} {v : α} (hc : st.chains.getD (k % st.chains.length) none = some j)
    (ht : tasks.getD j (Except.error default) = Except.ok v)
    (h1 : st.cursor < tasks.length - 1) (h2 : st.cursor + 1 < tasks.length) :
    Concurrency.step tasks k st =
      ({ results := sparseSet st.results j v
         counts := st.counts.set (st.cursor + 1) (st.counts.getD (st.cursor + 1) 0 + 1)
         writes := st.writes.set j (st.writes.getD j 0 + 1)
         cursor := st.cursor + 1
         chains := st.chains.set (k % st.chains.length) (some (st.cursor + 1)) }, none) := by
  unfold Concurrency.step
  simp only [hc, ht]
  rw [if_pos h1, if_pos h2]

theorem step_eq_term [Inhabited ε] {tasks : List (Except ε α)} {st : ConcState α}
    {k j : Nat} {v : α} (hc : st.chains.getD (k % st.chains.length) none = some j)
    (ht : tasks.getD j (Except.error default) = Except.ok v)
    (h1 : ¬ st.cursor < tasks.length - 1) :
    Concurrency.step tasks k st =
      ({ results := sparseSet st.results j v
         counts := st.counts
         writes := st.writes.set j (st.writes.getD j 0 + 1)
         cursor := st.cursor
         chains := st.chains.set (k % st.chains.length) none }, none) := by
  unfold Concurrency.step
  simp only [hc, ht]
  rw [if_neg h1]

theorem inv_step [Inhabited ε] {tasks : List (Except ε α)} {b : Int} {st : ConcState α}
    (h : Concurrency.Inv tasks b st) (k : Nat)
    (hok : (Concurrency.step tasks k st).2 = none) :
    Concurrency.Inv tasks b (Concurrency.step tasks k st).1 := by
  unfold Concurrency.Inv at h
  obtain ⟨hlen, hrlen, hslots, hcur, hdone, hpend, hwok, hclen, hcnt⟩ := h
  rcases hc : st.chains.getD (k % st.chains.length) none with _ | j
  · rw [step_eq_stutter hc]
    exact ⟨hlen, hrlen, hslots, hcur, hdone, hpend, hwok, hclen, hcnt⟩
  · have hj : j < tasks.length := hslots _ _ hc
    have hi : k % st.chains.length < st.chains.length := getD_some_lt hc
    rcases ht : tasks.getD j (Except.error default) with e | v
    · rw [step_eq_err hc ht] at hok
      simp at hok
    · by_cases h1 : st.cursor < tasks.length - 1
      · have h2 : st.cursor + 1 < tasks.length := by omega
        rw [step_eq_claim hc ht h1 h2]
        unfold Concurrency.Inv
        dsimp only
        refine ⟨?_, ?_, ?_, ?_, ?_, ?_, ?_, ?_, ?_⟩
        · rw [List.length_set]
          exact hlen
        · rw [sparseSet_length]
          omega
        · intro p j2 hp
          by_cases hpi : k % st.chains.length = p
          · rw [← hpi, getD_set_self st.chains _ _ none hi] at hp
            cases hp
            exact h2
          · rw [getD_set_ne st.chains _ none hpi] at hp
            exact hslots p j2 hp
        · omega
        · intro hd
          exfalso
          have h5 := done_getD_none hd (k % st.chains.length)
          dsimp only at h5
          rw [getD_set_self st.chains _ _ none hi] at h5
          cases h5
        · intro j2 hj2
          rcases hpend j2 hj2 with hw | ⟨p, hp⟩ | ⟨hs1, hs2⟩
          · left
            by_cases hjj : j2 = j
            · subst hjj
              rw [sparseSet_getD_self]
              simp
            · rw [sparseSet_getD_ne _ _ hjj]
              exact hw
          · by_cases hpi : k % st.chains.length = p
            · left
              rw [← hpi, hc] at hp
              cases hp
              rw [sparseSet_getD_self]
              simp
            · right; left
              refine ⟨p, ?_⟩
              rw [getD_set_ne st.chains _ none hpi]
              exact hp
          · by_cases hjc : j2 = st.cursor + 1
            · right; left
              refine ⟨k % st.chains.length, ?_⟩
              rw [getD_set_self st.chains _ _ none hi, hjc]
            · right; right
              exact ⟨hs1, by omega⟩
        · intro j2 hne
          by_cases hjj : j2 = j
          · subst hjj
            exact ⟨v, ht, sparseSet_getD_self _ _ _⟩
          · rw [sparseSet_getD_ne _ _ hjj] at hne ⊢
            exact hwok j2 hne
        · rw [List.length_set]
          exact hclen
        · intro j2 hj2
          by_cases hjc : j2 = st.cursor + 1
          · subst hjc
            rw [getD_set_self st.counts _ _ 0 (by omega)]
            rw [hcnt _ hj2]
            have hA : ¬(1 ≤ st.cursor + 1 ∧ st.cursor + 1 ≤ st.cursor) := by omega
            have hB : 1 ≤ st.cursor + 1 ∧ st.cursor + 1 ≤ st.cursor + 1 := by omega
            rw [if_neg hA, if_pos hB]
          · rw [getD_set_ne st.counts _ 0 (fun e => hjc e.symm)]
            rw [hcnt _ hj2]
            have hE : (if 1 ≤ j2 ∧ j2 ≤ st.cursor then 1 else 0)
                = (if 1 ≤ j2 ∧ j2 ≤ st.cursor + 1 then 1 else 0) := by
              split_ifs <;> omega
            rw [hE]
      · -- terminal branch: the cursor can no longer advance, the chain ends
        rw [step_eq_term hc ht h1]
        unfold Concurrency.Inv
        dsimp only
        refine ⟨?_, ?_, ?_, ?_, ?_, ?_, ?_, ?_, ?_⟩
        · rw [List.length_set]
          exact hlen
        · rw [sparseSet_length]
          omega
        · intro p j2 hp
          by_cases hpi : k % st.chains.length = p
          · rw [← hpi, getD_set_self st.chains _ none none hi] at hp
            cases hp
          · rw [getD_set_ne st.chains none none hpi] at hp
            exact hslots p j2 hp
        · exact hcur
        · intro _
          omega
        · intro j2 hj2
          rcases hpend j2 hj2 with hw | ⟨p, hp⟩ | ⟨hs1, hs2⟩
          · left
            by_cases hjj : j2 = j
            · subst hjj
              rw [sparseSet_getD_self]
              simp
            · rw [sparseSet_getD_ne _ _ hjj]
              exact hw
          · by_cases hpi : k % st.chains.length = p
            · left
              rw [← hpi, hc] at hp
              cases hp
              rw [sparseSet_getD_self]
              simp
            · right; left
              refine ⟨p, ?_⟩
              rw [getD_set_ne st.chains none none hpi]
              exact hp
          · exfalso
            omega
        · intro j2 hne
          by_cases hjj : j2 = j
          · subst hjj
            exact ⟨v, ht, sparseSet_getD_self _ _ _⟩
          · rw [sparseSet_getD_ne _ _ hjj] at hne ⊢
            exact hwok j2 hne
        · exact hclen
        · exact hcnt

theorem runAux_ok_inv [Inhabited ε] {tasks : List (Except ε α)} {b : Int}
    {σ : List Nat} {st st' : ConcState α}
    (h : Concurrency.Inv tasks b st)
    (hr : Concurrency.runAux tasks σ st = some (.ok st')) :
    Concurrency.Inv tasks b st' ∧ st'.done = true := by
  induction σ generalizing st with
  | nil =>
    unfold Concurrency.runAux at hr
    split at hr
    · rename_i hd
      cases hr
      exact ⟨h, hd⟩
    · cases hr
  | cons k σ ih =>
    unfold Concurrency.runAux at hr
    split at hr
    · rename_i hd
      cases hr
      exact ⟨h, hd⟩
    · rcases hs : Concurrency.step tasks k st with ⟨st2, oe⟩
      simp only [hs] at hr
      cases oe with
      | some e => simp at hr
      | none =>
        have h2 := inv_step h k (by rw [hs])
        rw [hs] at h2
        exact ih h2 hr

theorem runAux_error [Inhabited ε] {tasks : List (Except ε α)} {σ : List Nat}
    {st : ConcState α} {e : ε} (h : Concurrency.SlotsInv tasks st)
    (hr : Concurrency.runAux tasks σ st = some (.error e)) :
    ∃ j, j < tasks.length ∧ tasks.getD j (Except.error default) = Except.error e := by
  induction σ generalizing st with
  | nil =>
    unfold Concurrency.runAux at hr
    split at hr
    · simp at hr
    · cases hr
  | cons k σ ih =>
    unfold Concurrency.runAux at hr
    split at hr
    · simp at hr
    · rcases hs : Concurrency.step tasks k st with ⟨st2, oe⟩
      simp only [hs] at hr
      cases oe with
      | some e2 =>
        simp only [Option.some_inj] at hr
        cases hr
        obtain ⟨j, hc, ht⟩ :=
          step_error_task (show (Concurrency.step tasks k st).2 = some e by rw [hs])
        exact ⟨j, h _ _ hc, ht⟩
      | none =>
        have hsl := slots_step h k
        rw [hs] at hsl
        exact ih hsl hr

theorem done_results [Inhabited ε] {tasks : List (Except ε α)} {b : Int} {st : ConcState α}
    (h : Concurrency.Inv tasks b st) (hd : st.done = true) :
    st.results.length = tasks.length ∧
    (∀ j, j < tasks.length →
      ∃ v, tasks.getD j (Except.error default) = Except.ok v ∧
        st.results.getD j none = some v) ∧
    tasks.length ≤ st.cursor + 1 ∧
    st.cursor ≤ tasks.length - 1 ∧
    (∀ j, j < tasks.length → st.counts.getD j 0 =
      (if j < (min b (tasks.length : Int)).toNat then 1 else 0) +
      (if 1 ≤ j ∧ j ≤ st.cursor then 1 else 0)) := by
  unfold Concurrency.Inv at h
  obtain ⟨hlen, hrlen, hslots, hcur, hdone, hpend, hwok, hclen, hcnt⟩ := h
  have hcu := hdone hd
  have hwr : ∀ j, j < tasks.length → st.results.getD j none ≠ none := by
    intro j hj
    rcases hpend j hj with hw | ⟨p, hp⟩ | ⟨h1, h2⟩
    · exact hw
    · rw [done_getD_none hd p] at hp
      cases hp
    · omega
  refine ⟨?_, fun j hj => hwok j (hwr j hj), hcu, hcur, hcnt⟩
  rcases Nat.eq_zero_or_pos tasks.length with h0 | h0
  · omega
  · have h1 := getD_lt_length (d := (none : Option α)) (hwr (tasks.length - 1) (by omega))
    omega

theorem getD_eq_get {β : Type u} (l : List β) (d : β) {j : Nat} (hj : j < l.length) :
    l.getD j d = l.get ⟨j, hj⟩ := by
  rw [List.getD_eq_getElem?_getD, List.getElem?_eq_getElem hj]
  simp

theorem map_ok_getD [Inhabited ε] (vals : List α) {j : Nat} (hj : j < vals.length) :
    (vals.map (Except.ok : α → Except ε α)).getD j (Except.error default)
      = Except.ok (vals.get ⟨j, hj⟩) := by
  rw [List.getD_eq_getElem?_getD, List.getElem?_map, List.getElem?_eq_getElem hj]
  simp

theorem run_eq_ok [Inhabited ε] {tasks : List (Except ε α)} {b : Int} {σ : List Nat}
    {l : List (Option α)}
    (hr : Concurrency.run tasks b σ = some (.ok l)) :
    ∃ st', Concurrency.runState tasks b σ = some (.ok st') ∧ st'.results = l := by
  unfold Concurrency.run at hr
  rcases ho : Concurrency.runState tasks b σ with _ | r
  · rw [ho] at hr
    cases hr
  · rw [ho] at hr
    rcases r with e | st'
    · simp [Except.map] at hr
    · simp only [Option.map_some, Option.some_inj, Except.map] at hr
      cases hr
      exact ⟨st', rfl, rfl⟩

theorem run_eq_error [Inhabited ε] {tasks : List (Except ε α)} {b : Int} {σ : List Nat}
    {e : ε} (hr : Concurrency.run tasks b σ = some (.error e)) :
    Concurrency.runState tasks b σ = some (.error e) := by
  unfold Concurrency.run at hr
  rcases ho : Concurrency.runState tasks b σ with _ | r
  · rw [ho] at hr
    cases hr
  · rw [ho] at hr
    rcases r with e2 | st'
    · simp only [Option.map_some, Option.some_inj, Except.map] at hr
      cases hr
      rfl
    · simp [Except.map] at hr

theorem done_results_map_ok [Inhabited ε] {vals : List α} {b : Int} {st' : ConcState α}
    (hI : Concurrency.Inv (vals.map (Except.ok : α → Except ε α)) b st')
    (hd : st'.done = true) :
    st'.results = vals.map some := by
  obtain ⟨hlen, hvals, _, _, _⟩ := done_results hI hd
  rw [List.length_map] at hlen
  apply List.ext_getElem
  · rw [hlen]
    simp
  · intro i h1 h2
    have hi : i < vals.length := by simpa using h2
    obtain ⟨v, hv1, hv2⟩ := hvals i (by simpa using hi)
    rw [map_ok_getD vals hi] at hv1
    cases hv1
    rw [getD_eq_get st'.results none h1] at hv2
    simp only [List.get_eq_getElem] at hv2
    rw [hv2]
    simp

theorem getAux_succ_spec (attempt : Nat → Except String α) :
    ∀ (rem i : Nat) (v : α),
      (∀ k2, k2 < rem → ∃ e, attempt (i + k2) = Except.error e) →
      attempt (i + rem) = Except.ok v →
      getAux attempt rem i = (Except.ok v, rem + 1, rem) := by
  intro rem
  induction rem with
  | zero =>
    intro i v _ hs
    rw [Nat.add_zero] at hs
    unfold getAux
    simp only [hs]
  | succ r ih =>
    intro i v hf hs
    obtain ⟨e, he⟩ := hf 0 (by omega)
    rw [Nat.add_zero] at he
    unfold getAux
    simp only [he]
    have hf2 : ∀ k2, k2 < r → ∃ e2, attempt (i + 1 + k2) = Except.error e2 := by
      intro k2 hk
      have := hf (k2 + 1) (by omega)
      rw [show i + (k2 + 1) = i + 1 + k2 by omega] at this
      exact this
    have hs2 : attempt (i + 1 + r) = Except.ok v := by
      rw [show i + 1 + r = i + (r + 1) by omega]
      exact hs
    rw [ih (i + 1) v hf2 hs2]

theorem getAux_fail_spec (attempt : Nat → Except String α) (es : Nat → String) :
    ∀ (rem i : Nat),
      (∀ k2, k2 ≤ rem → attempt (i + k2) = Except.error (es (i + k2))) →
      getAux attempt rem i = (Except.error (es (i + rem)), rem + 1, rem) := by
  intro rem
  induction rem with
  | zero =>
    intro i hf
    have he := hf 0 (by omega)
    rw [Nat.add_zero] at he
    unfold getAux
    simp only [he]
    rw [Nat.add_zero]
  | succ r ih =>
    intro i hf
    have he := hf 0 (by omega)
    rw [Nat.add_zero] at he
    unfold getAux
    simp only [he]
    have hf2 : ∀ k2, k2 ≤ r → attempt (i + 1 + k2) = Except.error (es (i + 1 + k2)) := by
      intro k2 hk
      have := hf (k2 + 1) (by omega)
      rw [show i + (k2 + 1) = i + 1 + k2 by omega] at this
      exact this
    rw [ih (i + 1) hf2]
    rw [show i + 1 + r = i + (r + 1) by omega]

/-- C1: for every list of deterministic tasks (tasks that produce a value)
and every width in [1, n], whenever a scheduled run of Concurrency.run
completes it resolves to the vector [value 0, ..., value n-1] of length n,
for every completion schedule (so independently of the order in which
tasks complete); and for the empty task list it resolves to the empty
vector immediately, under every schedule. -/
theorem spec_C1 {ε α : Type} [Inhabited ε] :
    (∀ (vals : List α) (b : Int) (σ : List Nat) (r : Except ε (List (Option α))),
      1 ≤ b → b ≤ (vals.length : Int) →
      Concurrency.run (vals.map Except.ok) b σ = some r →
      r = Except.ok (vals.map some)) ∧
    (∀ (b : Int) (σ : List Nat),
      Concurrency.run ([] : List (Except ε α)) b σ = some (Except.ok [])) := by
  constructor
  · intro vals b σ r hb hbn hr
    rcases r with e | l
    · exfalso
      have h1 := run_eq_error hr
      unfold Concurrency.runState at h1
      obtain ⟨j, hj, ht⟩ := runAux_error (slots_init _ b) h1
      rw [List.length_map] at hj
      rw [map_ok_getD vals hj] at ht
      cases ht
    · obtain ⟨st', hrs, hres⟩ := run_eq_ok hr
      unfold Concurrency.runState at hrs
      obtain ⟨hI, hd⟩ := runAux_ok_inv (inv_init (vals.map Except.ok) b hb) hrs
      rw [← hres, done_results_map_ok hI hd]
  · intro b σ
    have h0 : (min b ((([] : List (Except ε α)).length) : Int)).toNat = 0 := by
      simp only [List.length_nil, Nat.cast_zero]
      omega
    have hd : (Concurrency.init ([] : List (Except ε α)) b).done = true := by
      simp [Concurrency.init, ConcState.done, h0]
    unfold Concurrency.run Concurrency.runState
    rw [runAux_done _ _ hd]
    simp [Except.map, Concurrency.init]

theorem spec_C1_witness :
    Concurrency.run ((List.map Except.ok [5, 7, 9]) : List (Except String Nat)) 2 [0, 0, 0, 1]
      = some (Except.ok (List.map some [5, 7, 9])) := by
  have h1 : Concurrency.run ((List.map Except.ok [5, 7, 9]) : List (Except String Nat)) 2
      [0, 0, 0, 1] = some (Except.ok [some 5, some 7, some 9]) := by decide
  have h2 := (spec_C1 (ε := String) (α := Nat)).1 [5, 7, 9] 2 [0, 0, 0, 1]
    (Except.ok [some 5, some 7, some 9]) (by decide) (by decide) h1
  rw [h1, h2]

/-- C2 claims every result slot is written at most once and no task is
invoked more than once, for every task list and batchSize. The code
violates this: the constructor starts the shared cursor at 0, so with two
successful tasks and batchSize 2 the worker that finishes first claims
slot 1 again, which is already owned by the second worker; slot 1 is
invoked and written twice (counts and writes both reach 2), although the
run still resolves with the expected values. The accompanying test for
the Fetcher (two lines, handler expected to be called exactly twice)
fails on this code, so the claim matches the intended behaviour and the
code is in error. -/
theorem spec_C2_code_bug :
    (Concurrency.advance ([Except.ok 10, Except.ok 20] : List (Except String Nat)) [0, 1, 0]
      (Concurrency.init ([Except.ok 10, Except.ok 20] : List (Except String Nat)) 2)).writes.getD
      1 0 = 2 ∧
    (Concurrency.advance ([Except.ok 10, Except.ok 20] : List (Except String Nat)) [0, 1, 0]
      (Concurrency.init ([Except.ok 10, Except.ok 20] : List (Except String Nat)) 2)).counts.getD
      1 0 = 2 ∧
    Concurrency.run ([Except.ok 10, Except.ok 20] : List (Except String Nat)) 2 [0, 1, 0]
      = some (Except.ok [some 10, some 20]) := by
  decide

/-- C3: in a completed all-successful run with n at least 2 and batchSize
at least 2, slot 0 is invoked exactly once, slots 1 through
min(batchSize, n) - 1 exactly twice (claimed again through the shared
cursor, which starts at 0), and slots from min(batchSize, n) on exactly
once; the final result vector is nevertheless the expected one. -/
theorem spec_C3 {ε α : Type} [Inhabited ε] (vals : List α) (b : Int) (σ : List Nat)
    (st' : ConcState α) (hn : 2 ≤ vals.length) (hb : 2 ≤ b)
    (hr : Concurrency.runState (vals.map (Except.ok : α → Except ε α)) b σ
      = some (Except.ok st')) :
    st'.counts.getD 0 0 = 1 ∧
    (∀ j, 1 ≤ j → j < (min b (vals.length : Int)).toNat → st'.counts.getD j 0 = 2) ∧
    (∀ j, (min b (vals.length : Int)).toNat ≤ j → j < vals.length →
      st'.counts.getD j 0 = 1) ∧
    st'.results = vals.map some := by
  have hb1 : (1 : Int) ≤ b := by omega
  unfold Concurrency.runState at hr
  obtain ⟨hI, hd⟩ := runAux_ok_inv (inv_init (vals.map Except.ok) b hb1) hr
  have hres := done_results_map_ok hI hd
  obtain ⟨hlen, hvals, hcu, hcur, hcnt⟩ := done_results hI hd
  simp only [List.length_map] at hcu hcur hcnt
  have hs2 : 2 ≤ (min b (vals.length : Int)).toNat := by omega
  have hsn : (min b (vals.length : Int)).toNat ≤ vals.length := by omega
  refine ⟨?_, ?_, ?_, hres⟩
  · rw [hcnt 0 (by omega), if_pos (by omega), if_neg (by omega)]
  · intro j h1 h2
    rw [hcnt j (by omega), if_pos h2, if_pos (by omega)]
  · intro j h1 h2
    rw [hcnt j h2, if_neg (by omega), if_pos (by omega)]

theorem spec_C3_witness :
    Concurrency.runState ((List.map Except.ok [5, 7, 9]) : List (Except String Nat)) 2
        [0, 0, 0, 1]
      = some (Except.ok (⟨[some 5, some 7, some 9], [1, 2, 1], [1, 2, 1], 2,
        [none, none]⟩ : ConcState Nat)) ∧
    (⟨[some 5, some 7, some 9], [1, 2, 1], [1, 2, 1], 2,
        [none, none]⟩ : ConcState Nat).counts.getD 0 0 = 1 ∧
    (⟨[some 5, some 7, some 9], [1, 2, 1], [1, 2, 1], 2,
        [none, none]⟩ : ConcState Nat).counts.getD 1 0 = 2 ∧
    (⟨[some 5, some 7, some 9], [1, 2, 1], [1, 2, 1], 2,
        [none, none]⟩ : ConcState Nat).counts.getD 2 0 = 1 := by
  have hr : Concurrency.runState ((List.map Except.ok [5, 7, 9]) : List (Except String Nat)) 2
      [0, 0, 0, 1] = some (Except.ok (⟨[some 5, some 7, some 9], [1, 2, 1], [1, 2, 1], 2,
        [none, none]⟩ : ConcState Nat)) := by decide
  have h := spec_C3 [5, 7, 9] 2 [0, 0, 0, 1] _ (by decide) (by decide) hr
  exact ⟨hr, h.1, h.2.1 1 (by decide) (by decide), h.2.2.1 2 (by decide) (by decide)⟩

/-- C4: at no point of a run with width at least 1 are more than
min(width, n) task invocations in flight: after any prefix of any
completion schedule (advance also follows the workers that survive a
failure), the number of live worker chains is at most min(width, n). -/
theorem spec_C4 {ε α : Type} [Inhabited ε] (tasks : List (Except ε α)) (b : Int)
    (σ : List Nat) (hb : 1 ≤ b) :
    ((Concurrency.advance tasks σ (Concurrency.init tasks b)).chains.countP
      (fun c => c.isSome)) ≤ min b.toNat tasks.length := by
  have h1 := List.countP_le_length (p := fun c : Option Nat => c.isSome)
    (l := (Concurrency.advance tasks σ (Concurrency.init tasks b)).chains)
  rw [advance_chains_length] at h1
  have h2 : (Concurrency.init tasks b).chains.length
      = (min b (tasks.length : Int)).toNat := by
    simp [Concurrency.init]
  omega

theorem spec_C4_witness :
    ((Concurrency.advance ([Except.ok 1, Except.ok 2] : List (Except String Nat)) [0]
      (Concurrency.init ([Except.ok 1, Except.ok 2] : List (Except String Nat)) 2)).chains.countP
      (fun c => c.isSome))
      ≤ min (2 : Int).toNat ([Except.ok 1, Except.ok 2] : List (Except String Nat)).length :=
  spec_C4 ([Except.ok 1, Except.ok 2] : List (Except String Nat)) 2 [0] (by decide)

/-- C5: HttpClient.get with retries r performs exactly r + 1 attempts and
emits exactly r warnings when the first r attempts fail and attempt r
succeeds, returning the decoded body of the successful attempt; when every
attempt up to r fails it performs exactly r + 1 attempts and surfaces the
failure of the final attempt unchanged; and a response with a non-2xx
status is a failure like any other, carrying status, status text and URL. -/
theorem spec_C5 {α : Type} (url : String) (fetchFn : Nat → Except String (Response α))
    (r : Nat) (v : α) (es : Nat → String) :
    ((∀ i, i < r → ∃ e, attemptResult url fetchFn i = Except.error e) →
      attemptResult url fetchFn r = Except.ok v →
      HttpClient.get url fetchFn r = (Except.ok v, r + 1, r)) ∧
    ((∀ i, i ≤ r → attemptResult url fetchFn i = Except.error (es i)) →
      HttpClient.get url fetchFn r = (Except.error (es r), r + 1, r)) ∧
    (∀ i (resp : Response α), fetchFn i = Except.ok resp → resp.ok = false →
      attemptResult url fetchFn i = Except.error
        ("HTTP " ++ toString resp.status ++ ": " ++ resp.statusText ++ " on \""
          ++ url ++ "\"")) := by
  refine ⟨?_, ?_, ?_⟩
  · intro hf hs
    unfold HttpClient.get
    have hf2 : ∀ k2, k2 < r → ∃ e, attemptResult url fetchFn (0 + k2) = Except.error e := by
      intro k2 hk
      rw [Nat.zero_add]
      exact hf k2 hk
    have hs2 : attemptResult url fetchFn (0 + r) = Except.ok v := by
      rw [Nat.zero_add]
      exact hs
    exact getAux_succ_spec (attemptResult url fetchFn) r 0 v hf2 hs2
  · intro hf
    unfold HttpClient.get
    have hf2 : ∀ k2, k2 ≤ r →
        attemptResult url fetchFn (0 + k2) = Except.error (es (0 + k2)) := by
      intro k2 hk
      rw [Nat.zero_add]
      exact hf k2 hk
    have h := getAux_fail_spec (attemptResult url fetchFn) es r 0 hf2
    rw [Nat.zero_add] at h
    exact h
  · intro i resp hfi hok
    unfold attemptResult
    simp only [hfi, hok]
    rfl

theorem spec_C5_witness :
    HttpClient.get "u"
        (fun i => if i = 0 then Except.error "boom"
          else Except.ok (⟨true, 200, "OK", (42 : Nat)⟩ : Response Nat)) 1
      = (Except.ok 42, 2, 1) := by
  have h := (spec_C5 "u"
    (fun i => if i = 0 then Except.error "boom"
      else Except.ok (⟨true, 200, "OK", (42 : Nat)⟩ : Response Nat)) 1 42 (fun _ => "boom")).1
  apply h
  · intro i hi
    have hi0 : i = 0 := by omega
    subst hi0
    exact ⟨"boom", by decide⟩
  · decide

/-- C6: whenever a run rejects, the error is the error of one of the tasks
of the list; with a valid width, a completed run over a list containing a
failing task always rejects, with a failing task error; and a run of
tasks that all succeed never rejects, under any schedule. -/
theorem spec_C6 {ε α : Type} [Inhabited ε] :
    (∀ (tasks : List (Except ε α)) (b : Int) (σ : List Nat) (e : ε),
      Concurrency.run tasks b σ = some (Except.error e) →
      ∃ j, ∃ h : j < tasks.length, tasks.get ⟨j, h⟩ = Except.error e) ∧
    (∀ (tasks : List (Except ε α)) (b : Int) (σ : List Nat)
      (r : Except ε (List (Option α))), 1 ≤ b →
      (∃ j, ∃ h : j < tasks.length, ∃ e0 : ε, tasks.get ⟨j, h⟩ = Except.error e0) →
      Concurrency.run tasks b σ = some r →
      ∃ e, r = Except.error e ∧
        ∃ j, ∃ h : j < tasks.length, tasks.get ⟨j, h⟩ = Except.error e) ∧
    (∀ (vals : List α) (b : Int) (σ : List Nat) (e : ε),
      ¬ Concurrency.run (vals.map Except.ok) b σ = some (Except.error e)) := by
  have hA : ∀ (tasks : List (Except ε α)) (b : Int) (σ : List Nat) (e : ε),
      Concurrency.run tasks b σ = some (Except.error e) →
      ∃ j, ∃ h : j < tasks.length, tasks.get ⟨j, h⟩ = Except.error e := by
    intro tasks b σ e hr
    have h1 := run_eq_error hr
    unfold Concurrency.runState at h1
    obtain ⟨j, hj, ht⟩ := runAux_error (slots_init tasks b) h1
    refine ⟨j, hj, ?_⟩
    rw [← getD_eq_get tasks (Except.error default) hj]
    exact ht
  refine ⟨hA, ?_, ?_⟩
  · intro tasks b σ r hb hex hr
    rcases r with e | l
    · exact ⟨e, rfl, hA tasks b σ e hr⟩
    · exfalso
      obtain ⟨j0, hj0, e0, hget⟩ := hex
      obtain ⟨st', hrs, _⟩ := run_eq_ok hr
      unfold Concurrency.runState at hrs
      obtain ⟨hI, hd⟩ := runAux_ok_inv (inv_init tasks b hb) hrs
      obtain ⟨_, hvals, _⟩ := done_results hI hd
      obtain ⟨v, hv1, _⟩ := hvals j0 hj0
      rw [getD_eq_get tasks (Except.error default) hj0, hget] at hv1
      cases hv1
  · intro vals b σ e hr
    obtain ⟨j, hj, ht⟩ := hA _ b σ e hr
    simp at ht

theorem spec_C6_witness :
    ∃ e, (Except.error "bad" : Except String (List (Option Nat))) = Except.error e ∧
      ∃ j, ∃ h : j < ([Except.ok 1, Except.error "bad"] : List (Except String Nat)).length,
        ([Except.ok 1, Except.error "bad"] : List (Except String Nat)).get ⟨j, h⟩
          = Except.error e := by
  have hr : Concurrency.run ([Except.ok 1, Except.error "bad"] : List (Except String Nat)) 2 [1]
      = some (Except.error "bad") := by decide
  exact (spec_C6 (ε := String) (α := Nat)).2.1 _ 2 [1] _ (by decide)
    ⟨1, by decide, "bad", by decide⟩ hr

/-- C7: dataToLines keeps exactly the rate entries whose key is among the
requested quotes (the output is a permutation of the formatted filtered
entries), sorted in ascending lexicographic key order; the documented
example evaluates as stated, and an empty or disjoint quote list yields
the empty sequence. -/
theorem spec_C7 :
    (∀ (date : String) (rates : List (String × JsVal)) (quotes : List String),
      (dataToLines date rates quotes).Perm
        ((rates.filter (fun e => quotes.contains e.1)).map (formatLine date)) ∧
      ((dataToLines date rates quotes).map Prod.fst).Sorted (· ≤ ·)) ∧
    dataToLines "2024-01-01"
        [("USD", JsVal.num "1"), ("EUR", JsVal.num "0.85"), ("GBP", JsVal.num "0.73")]
        ["EUR", "USD"]
      = [("EUR", "2024-01-01,0.85"), ("USD", "2024-01-01,1")] ∧
    (∀ (date : String) (rates : List (String × JsVal)),
      dataToLines date rates [] = []) ∧
    (∀ (date : String) (rates : List (String × JsVal)) (quotes : List String),
      (∀ e ∈ rates, e.1 ∉ quotes) → dataToLines date rates quotes = []) := by
  refine ⟨?_, ?_, ?_, ?_⟩
  · intro date rates quotes
    constructor
    · exact (List.perm_insertionSort quoteLE _).map _
    · have hs := List.sorted_insertionSort quoteLE
        (rates.filter (fun e => quotes.contains e.1))
      unfold dataToLines
      rw [List.map_map]
      have hf : (Prod.fst ∘ formatLine date) = Prod.fst := by
        funext e
        rfl
      rw [hf]
      exact List.Pairwise.map _ (fun a b h => String.le_iff_toList_le.mpr h) hs
  · decide
  · intro date rates
    unfold dataToLines
    have h : rates.filter (fun e => ([] : List String).contains e.1) = [] := by
      simp
    rw [h]
    rfl
  · intro date rates quotes hdisj
    unfold dataToLines
    have h : rates.filter (fun e => quotes.contains e.1) = [] := by
      rw [List.filter_eq_nil_iff]
      intro e he
      simp only [List.contains, Bool.not_eq_true]
      rw [Bool.eq_false_iff]
      intro hc
      exact hdisj e he (List.elem_iff.mp hc)
    rw [h]
    rfl

theorem spec_C7_witness :
    dataToLines "2024-01-01" [("USD", JsVal.num "1")] ["EUR"] = [] :=
  spec_C7.2.2.2 "2024-01-01" [("USD", JsVal.num "1")] ["EUR"] (by decide)

/-- C8: a falsy rate (the JS number 0, null, or an absent or undefined
value) renders as the date followed by a trailing comma and an empty
suffix, so a rate of exactly 0 is indistinguishable in the output from a
missing rate; the documented null and undefined example evaluates as
stated. -/
theorem spec_C8 :
    (∀ (date q : String) (r : JsVal), r.truthy = false →
      formatLine date (q, r) = (q, date ++ ",")) ∧
    (∀ (date q : String),
      formatLine date (q, JsVal.zero) = formatLine date (q, JsVal.null) ∧
      formatLine date (q, JsVal.zero) = formatLine date (q, JsVal.undef)) ∧
    dataToLines "2024-01-01" [("USD", JsVal.null), ("EUR", JsVal.undef)] ["EUR", "USD"]
      = [("EUR", "2024-01-01,"), ("USD", "2024-01-01,")] := by
  refine ⟨?_, ?_, ?_⟩
  · intro date q r hr
    unfold formatLine
    rw [hr]
    simp
  · intro date q
    exact ⟨rfl, rfl⟩
  · decide

theorem spec_C8_witness :
    formatLine "2024-01-01" ("USD", JsVal.zero) = ("USD", "2024-01-01,") :=
  spec_C8.1 "2024-01-01" "USD" JsVal.zero rfl

/-- C9 claims the shared cursor starts at the width of the initial window
minus one. In the code the constructor initialises the cursor to 0
regardless of the width, so with two tasks and batchSize 2 it starts at 0
instead of 1, and the first completing worker claims slot 1 although slot
1 is already owned by the second initial worker: the cursor description
in the claim matches the documented intent (each slot claimed once; the
Fetcher test counts one handler call per line) but not the code. -/
theorem spec_C9_code_bug :
    (Concurrency.init ([Except.ok 10, Except.ok 20] : List (Except String Nat)) 2).cursor
      = 0 ∧
    (Concurrency.init ([Except.ok 10, Except.ok 20] : List (Except String Nat)) 2).chains
      = [some 0, some 1] ∧
    (Concurrency.step ([Except.ok 10, Except.ok 20] : List (Except String Nat)) 0
      (Concurrency.init ([Except.ok 10, Except.ok 20] : List (Except String Nat)) 2)).1.chains
      = [some 1, some 1] := by
  decide

/-- C10: a batchSize of zero or less makes the effective window empty, so
run resolves immediately to the empty result vector, invokes no task (all
invocation counts stay zero) and raises no error, also for a non-empty
task list. -/
theorem spec_C10 {ε α : Type} [Inhabited ε] (tasks : List (Except ε α)) (b : Int)
    (σ : List Nat) (_hne : tasks ≠ []) (hb : b ≤ 0) :
    Concurrency.run tasks b σ = some (Except.ok []) ∧
    (Concurrency.advance tasks σ (Concurrency.init tasks b)).counts
      = List.replicate tasks.length 0 := by
  have h0 : (min b (tasks.length : Int)).toNat = 0 := by omega
  have hch : (Concurrency.init tasks b).chains = [] := by
    simp [Concurrency.init, h0]
  have hd : (Concurrency.init tasks b).done = true := by
    simp [ConcState.done, hch]
  constructor
  · unfold Concurrency.run Concurrency.runState
    rw [runAux_done _ _ hd]
    simp [Except.map, Concurrency.init]
  · rw [advance_done _ _ hd]
    simp [Concurrency.init, h0]

theorem spec_C10_witness :
    Concurrency.run ([Except.ok 1] : List (Except String Nat)) 0 [] = some (Except.ok []) ∧
    (Concurrency.advance ([Except.ok 1] : List (Except String Nat)) []
      (Concurrency.init ([Except.ok 1] : List (Except String Nat)) 0)).counts
      = List.replicate ([Except.ok 1] : List (Except String Nat)).length 0 :=
  spec_C10 ([Except.ok 1] : List (Except String Nat)) 0 [] (by decide) (by decide)

end AsteroidDumper
